import Mathlib

/-!
# Slumble: the Mumble <-> Slack relay of `main.go`

A shallow embedding of the three pieces of `main.go` that decide what is relayed:

* the body of the `for` loop of `connectSlack` (one payload dequeued from
  `mumbleMessageChan`: inline-image extraction, tag stripping, post to Slack);
* the `switch` of `manageSlack` (one event of `slackRtm.IncomingEvents`: link rewriting
  and the send into the Mumble channel);
* the `TextMessage` listener registered in `main`.

Modelling decisions:

* A Go string is modelled as the list of its characters (`Str`).  The separators, prefixes and
  patterns of the program are ASCII, and searching, splitting and replacing an ASCII text in
  UTF-8 bytes finds the same places as in the decoded characters.  The base64 decoder rejects
  every byte above 127 as it rejects every character above 127, so the bytes that
  `url.PathUnescape` writes are represented by the characters of the same code.  File content
  (`string(decoded)`) is a list of bytes, as numbers.
* The Go library functions the program calls (`strings.Index`, `Contains`, `HasPrefix`,
  `Split`, `SplitN`, `Replace`, `url.PathUnescape`, `base64.StdEncoding.DecodeString`,
  `regexp.ReplaceAllString`) are modelled by what they compute on such lists.  Loops that run
  over positions of a string carry a counter that is at least the length of the string.
* The tag stripper `strip.StripTags`, the lookup `slackApi.GetUserInfo` and the configuration are
  parameters.
* An index expression out of range and a nil pointer are run-time panics, kept as outcomes.
* Console output (`fmt.Print*`) and the results of the calls on `slackApi` (which the program
  only prints) are not modelled; `manageSlack` is modelled with the Mumble client connected.
-/

namespace Slumble

/-- A Go string, as the list of its characters. -/
abbrev Str := List Char

/-! ## The `strings` package -/

/-- Go's `strings.HasPrefix(s, prefix)`. -/
def HasPrefix (s pre : Str) : Bool := pre.isPrefixOf s

/-- Go's `strings.Index(s, substr)`: the position of the first occurrence of `substr` in `s`,
`none` for Go's `-1`. -/
def Index : Str → Str → Option Nat
  | [], sep => if sep.isPrefixOf [] then some 0 else none
  | c :: cs, sep => if sep.isPrefixOf (c :: cs) then some 0 else (Index cs sep).map (· + 1)

/-- Go's `strings.Contains(s, substr)`, which is `Index(s, substr) >= 0`. -/
def Contains (s sub : Str) : Bool := (Index s sub).isSome

/-- The loop of `strings.genSplit` for a non-empty separator: cut at the first occurrence of
`sep`, continue behind it.  The counter bounds the number of cuts. -/
def splitLoop (sep : Str) : Nat → Str → List Str
  | 0, s => [s]
  | n + 1, s =>
    match Index s sep with
    | none => [s]
    | some m => s.take m :: splitLoop sep n (s.drop (m + sep.length))

/-- Go's `strings.Split(s, sep)`, which is also `strings.SplitN(s, sep, -1)`: all the pieces between
the non-overlapping occurrences of `sep`, found from the left.  An empty separator explodes `s`
into its characters.  At most `len(s)` cuts can be made. -/
def Split (s sep : Str) : List Str :=
  if sep = [] then s.map (fun c => [c]) else splitLoop sep s.length s

/-- The loop of `strings.Replace` for a non-empty `old`: copy up to the first occurrence of
`old`, write `new`, continue behind the occurrence. -/
def replaceLoop (old new : Str) : Nat → Str → Str
  | 0, s => s
  | n + 1, s =>
    match Index s old with
    | none => s
    | some j => s.take j ++ new ++ replaceLoop old new n (s.drop (j + old.length))

/-- Go's `strings.Replace(s, old, new, -1)`: every non-overlapping occurrence of `old`, found from
the left, is replaced by `new`.  With an empty `old`, `new` is inserted before every character
and at the end. -/
def Replace (s old new : Str) : Str :=
  if old = new then s
  else if old = [] then new ++ s.flatMap (fun c => c :: new)
  else replaceLoop old new s.length s

/-! ## `url.PathUnescape` -/

/-- The `ishex` helper of `net/url`. -/
def ishex (c : Char) : Bool :=
  ('0' ≤ c && c ≤ '9') || ('a' ≤ c && c ≤ 'f') || ('A' ≤ c && c ≤ 'F')

/-- The `unhex` helper of `net/url`. -/
def unhex (c : Char) : Nat :=
  if '0' ≤ c && c ≤ '9' then c.toNat - '0'.toNat
  else if 'a' ≤ c && c ≤ 'f' then c.toNat - 'a'.toNat + 10
  else if 'A' ≤ c && c ≤ 'F' then c.toNat - 'A'.toNat + 10
  else 0

/-- First pass of `url.unescape`: every `%` is followed by two hex digits. -/
def escapesWellFormed : Str → Bool
  | [] => true
  | c :: rest =>
    if c = '%' then
      match rest with
      | a :: b :: rest2 => ishex a && ishex b && escapesWellFormed rest2
      | _ => false
    else escapesWellFormed rest

/-- Second pass of `url.unescape` in path-segment mode: `%XY` becomes the byte `XY`, every
other character (also `+`) is copied.  A byte is represented by the character of that code. -/
def unescapeCopy : Str → Str
  | [] => []
  | c :: rest =>
    if c = '%' then
      match rest with
      | a :: b :: rest2 => Char.ofNat (unhex a * 16 + unhex b) :: unescapeCopy rest2
      | _ => c :: rest
    else c :: unescapeCopy rest

/-- Go's `url.PathUnescape(s)`: `none` stands for the `EscapeError`, with which Go returns the
empty string. -/
def PathUnescape (s : Str) : Option Str :=
  if escapesWellFormed s then some (unescapeCopy s) else none

/-! ## `base64.StdEncoding.DecodeString` -/

/-- The alphabet of `base64.StdEncoding`. -/
def encodeStd : Str :=
  "ABCDEFGHIJKLMNOPQRSTUVWXYZabcdefghijklmnopqrstuvwxyz0123456789+/".toList

/-- The decode map of the encoding: the position of the character in the alphabet, `none` for
the `0xff` entries. -/
def decodeMap (c : Char) : Option Nat :=
  if c ∈ encodeStd then some (encodeStd.indexOf c) else none

/-- The end of `decodeQuantum`: `dbuf` holds the `dlen` 6-bit values read for this quantum
(the values not read are 0); they are assembled into three bytes, of which `dlen - 1` are
written. -/
def quantumBytes (dbuf : List Nat) : List Nat :=
  let val := dbuf.getD 0 0 <<< 18 ||| dbuf.getD 1 0 <<< 12 ||| dbuf.getD 2 0 <<< 6 ||| dbuf.getD 3 0
  [(val >>> 16) % 256, (val >>> 8) % 256, val % 256].take (dbuf.length - 1)

/-- The newline skipping of `decodeQuantum`. -/
def skipNewlines : Str → Str
  | [] => []
  | c :: cs => if c = '\n' ∨ c = '\r' then skipNewlines cs else c :: cs

/-- The padding case of `decodeQuantum`: a `=` has been read after the values `dbuf`, `cs` is
what follows it.  After one value or none the padding is incorrect; after two a second `=` is
expected; nothing but newlines may follow the padding. -/
def decodePadding (dbuf : List Nat) (cs : Str) (out : List Nat) : Option (List Nat) :=
  if dbuf.length < 2 then none
  else if dbuf.length = 2 then
    match skipNewlines cs with
    | [] => none
    | e :: rest =>
      if e ≠ '=' then none
      else if skipNewlines rest = [] then some (out ++ quantumBytes dbuf)
      else none
  else if skipNewlines cs = [] then some (out ++ quantumBytes dbuf)
  else none

/-- The decoding loop of `Encoding.Decode` with `decodeQuantum` (standard alphabet, padding
`=`, not strict): `dbuf` holds the 6-bit values read so far in the current quantum, `out` the
bytes already decoded.  `none` stands for a `CorruptInputError`. -/
def decodeLoop : Str → List Nat → List Nat → Option (List Nat)
  | [], dbuf, out => if dbuf = [] then some out else none
  | c :: cs, dbuf, out =>
    match decodeMap c with
    | some v =>
      if dbuf.length = 3 then decodeLoop cs [] (out ++ quantumBytes (dbuf ++ [v]))
      else decodeLoop cs (dbuf ++ [v]) out
    | none =>
      if c = '\n' ∨ c = '\r' then decodeLoop cs dbuf out
      else if c ≠ '=' then none
      else decodePadding dbuf cs out

/-- Go's `base64.StdEncoding.DecodeString(s)`: the decoded bytes, `none` when Go returns an
error. -/
def DecodeString (s : Str) : Option (List Nat) := decodeLoop s [] []

/-! ## `regexp`: a backtracking matcher

Go's `regexp` returns, at each start position, the match a backtracking search finds first
(leftmost-first), and `ReplaceAllString` replaces the non-overlapping matches found from the
left.  The matcher below is that backtracking search, in continuation-passing style. -/

/-- Regular expressions, as far as the relay's pattern needs them.  Repetition is only ever
applied to a set of single characters there. -/
inductive Regex where
  | char (c : Char)
  | cat (a b : Regex)
  | star (set : Char → Bool)
  | opt (r : Regex)
  | group (i : Nat) (r : Regex)

/-- The submatches recorded so far, the most recent first. -/
abbrev Caps := List (Nat × Str)

/-- Greedy `set*`: take a character of the set when there is one and go on; when the rest of the
pattern then fails, give the character back and try the rest of the pattern here. -/
def starLoop {α : Type} (set : Char → Bool) (k : Str → Option α) : Str → Option α
  | [] => k []
  | c :: cs =>
    if set c then
      match starLoop set k cs with
      | some r => some r
      | none => k (c :: cs)
    else k (c :: cs)

/-- Backtracking match of `r` at the head of `s`, then of the continuation `k` on what is
left. -/
def Regex.run : Regex → Str → Caps → (Str → Caps → Option (Str × Caps)) → Option (Str × Caps)
  | .char c, s, caps, k =>
    match s with
    | [] => none
    | d :: ds => if d = c then k ds caps else none
  | .cat a b, s, caps, k => a.run s caps (fun s1 caps1 => b.run s1 caps1 k)
  | .star set, s, caps, k => starLoop set (fun s1 => k s1 caps) s
  | .opt r, s, caps, k =>
    match r.run s caps k with
    | some res => some res
    | none => k s caps
  | .group i r, s, caps, k =>
    r.run s caps (fun s1 caps1 => k s1 ((i, s.take (s.length - s1.length)) :: caps1))

/-- The match of `re` that starts at the head of `s`: the text behind the match and the
submatches. -/
def Regex.matchAt (re : Regex) (s : Str) : Option (Str × Caps) :=
  re.run s [] (fun rest caps => some (rest, caps))

/-- The text of submatch `i`, empty when the group did not take part in the match. -/
def submatch (caps : Caps) (i : Nat) : Str :=
  match caps.lookup i with
  | some t => t
  | none => []

/-- The loop of `ReplaceAllString` for a pattern that matches no empty string: at each position
either a match starts, then its expansion is written and the search goes on behind the match,
or the character is copied. -/
def replaceAllLoop (re : Regex) (repl : Caps → Str) : Nat → Str → Str
  | 0, s => s
  | n + 1, s =>
    match re.matchAt s with
    | some (rest, caps) => repl caps ++ replaceAllLoop re repl n rest
    | none =>
      match s with
      | [] => []
      | c :: cs => c :: replaceAllLoop re repl n cs

/-- Go's `re.ReplaceAllString(src, template)`, the template given by its expansion `repl`. -/
def ReplaceAllString (re : Regex) (src : Str) (repl : Caps → Str) : Str :=
  replaceAllLoop re repl (src.length + 1) src

/-! ## `connectSlack`: from Mumble to Slack -/

/-- The two fields of `Configuration`. -/
structure Configuration where
  SlackAPIToken : Str
  SlackChannel : Str

/-- The calls `connectSlack` makes on `slackApi`. -/
inductive SlackCall where
  | UploadFile (title : Str) (content : List Nat)
  | PostMessage (channel text : Str) (asUser : Bool)
  deriving DecidableEq

/-- How one turn of the loop of `connectSlack` ends: normally, or in a run-time panic (which
ends the process); either way with the calls made on `slackApi` until then. -/
inductive Outcome where
  | done (calls : List SlackCall)
  | panic (calls : List SlackCall)
  deriving DecidableEq

/-- The separator of line 46. -/
def imgOpen : Str := "<img src=\"".toList

/-- The prefix tested on line 48. -/
def dataImage : Str := "data:image/".toList

/-- The separator of line 49. -/
def base64Marker : Str := "base64,".toList

/-- The separator of line 51. -/
def imgClose : Str := "\"/>".toList

/-- The `for _, img := range images` loop of lines 47-70; `calls` are the uploads made so
far.  `tmp[1]` and `tmp[0]` are index expressions: out of range they panic. -/
def imageLoop : List Str → List SlackCall → Outcome
  | [], calls => .done calls
  | img :: images, calls =>
    if HasPrefix img dataImage then
      match (Split img base64Marker).get? 1 with
      | none => .panic calls
      | some base64str =>
        match (Split base64str imgClose).get? 0 with
        | none => .panic calls
        | some tmp0 =>
          let base64str := Replace tmp0 " ".toList []
          let base64str := (PathUnescape base64str).getD []
          match DecodeString base64str with
          | none => imageLoop images calls
          | some decoded =>
            imageLoop images (calls ++ [.UploadFile "Mumble Image ".toList decoded])
    else imageLoop images calls

/-- One turn of the `for` loop of `connectSlack` (lines 41-76) on the dequeued `msg`. -/
def connectSlackBody (config : Configuration) (StripTags : Str → Str) (msg : Str) : Outcome :=
  if msg ≠ [] then
    let images :=
      if Contains msg "<img src=".toList then imageLoop (Split msg imgOpen) []
      else .done []
    match images with
    | .panic calls => .panic calls
    | .done calls =>
      .done (calls ++ [.PostMessage config.SlackChannel (StripTags msg) true])
  else .done []

/-- The loop of `connectSlack` on the payloads dequeued from `mumbleMessageChan`, in order. -/
def connectSlack (config : Configuration) (StripTags : Str → Str) : List Str → Outcome
  | [] => .done []
  | msg :: msgs =>
    match connectSlackBody config StripTags msg with
    | .panic calls => .panic calls
    | .done calls =>
      match connectSlack config StripTags msgs with
      | .panic more => .panic (calls ++ more)
      | .done more => .done (calls ++ more)

/-! ## `manageSlack`: from Slack to Mumble -/

/-- The characters of the bracket expression of the pattern of line 101. -/
def urlSet (c : Char) : Bool :=
  c ∈ "$+!*'(),?=%_".toList || ('a' ≤ c && c ≤ 'z') || ('A' ≤ c && c ≤ 'Z') ||
    ('0' ≤ c && c ≤ '9') || c ∈ "/.:-".toList

/-- The `.` of the pattern: any character but the newline. -/
def anyChar (c : Char) : Bool := c ≠ '\n'

/-- The pattern of line 101, `<(http[...]*)\|?(.*)?>`. -/
def linkRe : Regex :=
  .cat (.char '<')
    (.cat (.group 1 (.cat (.char 'h') (.cat (.char 't') (.cat (.char 't')
        (.cat (.char 'p') (.star urlSet))))))
      (.cat (.opt (.char '|'))
        (.cat (.opt (.group 2 (.star anyChar))) (.char '>'))))

/-- The expansion of the template of line 102, in which `$1` and `$2` are the submatches. -/
def anchor (caps : Caps) : Str :=
  "<a href=\"".toList ++ submatch caps 1 ++ "\">".toList ++ submatch caps 2 ++ "</a>".toList

/-- The anchor with an empty label that line 103 looks for. -/
def emptyLabel : Str := "\"></a>".toList

/-- What line 103 puts in its place. -/
def noTitle : Str :=
  "\">Link has no title? I didn't know Slack would even do that...</a>".toList

/-- Lines 101-103: the text of a Slack message, rewritten for Mumble. -/
def rewriteText (text : Str) : Str :=
  Replace (ReplaceAllString linkRe text anchor) emptyLabel noTitle

/-- A user, of either network, as far as the relay looks at it. -/
structure User where
  Name : Str

/-- The events of `slackRtm.IncomingEvents`, by the cases of the `switch` of `manageSlack`;
`Other` is any event the `default` case takes. -/
inductive Event where
  | HelloEvent
  | ConnectedEvent
  | MessageEvent (User Text : Str)
  | PresenceChangeEvent
  | LatencyReport
  | RTMError
  | DisconnectedEvent
  | FileCommentEditedEvent
  | FilePublicEvent
  | FileSharedEvent
  | ChannelJoinedEvent
  | ReactionAddedEvent
  | MessageTooLongEvent
  | FileCommentAddedEvent
  | InvalidAuthEvent
  | Other (kind : Str)
  deriving DecidableEq

/-- The body of the loop of `manageSlack` (lines 87-145) on one event: the messages sent into
the Mumble channel, or `none` for the `return` of line 141.  `GetUserInfo` answers `none` when
`slackApi.GetUserInfo` returns an error.  The Mumble client is taken to be connected. -/
def manageSlackEvent (GetUserInfo : Str → Option User) : Event → Option (List Str)
  | .MessageEvent user text =>
    match GetUserInfo user with
    | none => some []
    | some slackUser =>
      if slackUser.Name ≠ "mumblerelay".toList then
        some [slackUser.Name ++ ": ".toList ++ rewriteText text]
      else some []
  | .InvalidAuthEvent => none
  | _ => some []

/-- The loop of `manageSlack` over the events received: all the messages sent into the Mumble
channel, in order. -/
def manageSlack (GetUserInfo : Str → Option User) : List Event → List Str
  | [] => []
  | ev :: evs =>
    match manageSlackEvent GetUserInfo ev with
    | none => []
    | some sent => sent ++ manageSlack GetUserInfo evs

/-! ## The `TextMessage` listener of `main` -/

/-- The fields of `gumble.TextMessageEvent` the listener reads; `Sender` is a pointer. -/
structure TextMessageEvent where
  Sender : Option User
  Message : Str

/-- What a call of the listener does: it returns after sending the listed payloads on
`mumbleMessageChan`, or it panics on a nil pointer. -/
inductive Listened where
  | sent (payloads : List Str)
  | nilPanic
  deriving DecidableEq

/-- Reading the field `Name` through the pointer `e.Sender`. -/
def senderName (e : TextMessageEvent) : Option Str :=
  match e.Sender with
  | none => none
  | some u => some u.Name

/-- The `TextMessage` listener (lines 163-174). -/
def TextMessage (e : TextMessageEvent) : Listened :=
  if e.Sender.isNone then .sent []
  else
    match senderName e with
    | none => .nilPanic
    | some name =>
      if name ≠ "SlackRelay".toList then .sent [name ++ ": ".toList ++ e.Message]
      else .sent []

/-! ## The two directions side by side -/

/-- The state of the relay: whether `manageSlack` is still in its loop, whether the process
has panicked, and what has been sent to either network. -/
structure Relay where
  slackLoop : Bool
  crashed : Bool
  toMumble : List Str
  toSlack : List SlackCall

/-- What happens next: an event arrives on `slackRtm.IncomingEvents`, or `connectSlack`
dequeues a payload from `mumbleMessageChan`. -/
inductive Input where
  | slack (ev : Event)
  | dequeued (msg : Str)

/-- The relay at start: both loops running, nothing sent. -/
def Relay.start : Relay := { slackLoop := true, crashed := false, toMumble := [], toSlack := [] }

/-- One step of the relay.  An event is handled by `manageSlack` while its loop runs, a payload
by `connectSlack`; nothing happens any more once the process has panicked. -/
def Relay.step (config : Configuration) (StripTags : Str → Str)
    (GetUserInfo : Str → Option User) (r : Relay) : Input → Relay
  | .slack ev =>
    if r.crashed || !r.slackLoop then r
    else
      match manageSlackEvent GetUserInfo ev with
      | none => { r with slackLoop := false }
      | some sent => { r with toMumble := r.toMumble ++ sent }
  | .dequeued msg =>
    if r.crashed then r
    else
      match connectSlackBody config StripTags msg with
      | .panic calls => { r with crashed := true, toSlack := r.toSlack ++ calls }
      | .done calls => { r with toSlack := r.toSlack ++ calls }

/-- The relay after a sequence of inputs. -/
def Relay.run (config : Configuration) (StripTags : Str → Str)
    (GetUserInfo : Str → Option User) (r : Relay) (inputs : List Input) : Relay :=
  inputs.foldl (Relay.step config StripTags GetUserInfo) r


/-- The calls made on `slackApi`, however the loop ended. -/
def Outcome.calls : Outcome → List SlackCall
  | .done calls => calls
  | .panic calls => calls

/-- The payloads that `connectSlack` dequeues in a sequence of inputs, in order. -/
def dequeuedOf : List Input → List Str
  | [] => []
  | .dequeued msg :: inputs => msg :: dequeuedOf inputs
  | .slack _ :: inputs => dequeuedOf inputs

/-! ## Facts about `Index` -/

theorem Index_of_isPrefixOf {s sep : Str} (h : sep.isPrefixOf s = true) : Index s sep = some 0 := by
  cases s <;> simp [Index, h]

theorem Index_cons_of_not_isPrefixOf {c : Char} {cs sep : Str}
    (h : sep.isPrefixOf (c :: cs) = false) :
    Index (c :: cs) sep = (Index cs sep).map (· + 1) := by
  simp [Index, h]

theorem Index_nil {sep : Str} (h : sep ≠ []) : Index [] sep = none := by
  cases sep with
  | nil => exact absurd rfl h
  | cons a t => simp [Index, List.isPrefixOf]

/-- Scanning over characters that differ from the first character of the separator. -/
theorem Index_skip {h : Char} {t : Str} (a s : Str) (ha : h ∉ a) :
    Index (a ++ s) (h :: t) = (Index s (h :: t)).map (· + a.length) := by
  induction a with
  | nil => simp
  | cons c a ih =>
    have hc : c ≠ h := fun e => ha (by simp [e])
    have ha2 : h ∉ a := fun e => ha (by simp [e])
    have hp : (h :: t).isPrefixOf (c :: (a ++ s)) = false := by
      simp [List.isPrefixOf, Ne.symm hc]
    rw [List.cons_append, Index_cons_of_not_isPrefixOf hp, ih ha2]
    cases Index s (h :: t) <;> simp [Nat.add_assoc]

/-- A separator cannot begin left of a character it does not contain and reach over it. -/
theorem isPrefixOf_append_cons {q : Char} (sep : Str) (hq : q ∉ sep) (x r : Str) :
    sep.isPrefixOf (x ++ q :: r) = sep.isPrefixOf x := by
  induction sep generalizing x with
  | nil => simp [List.isPrefixOf]
  | cons h t ih =>
    have hh : h ≠ q := fun e => hq (by simp [e])
    have ht : q ∉ t := fun e => hq (by simp [e])
    cases x with
    | nil => simp [List.isPrefixOf, hh]
    | cons y x =>
      have := ih ht x
      simp only [List.cons_append, List.isPrefixOf, List.append_eq, this]

theorem Index_append_cons {q : Char} {sep : Str} (hq : q ∉ sep) (hne : sep ≠ []) (a r : Str) :
    Index (a ++ q :: r) sep =
      match Index a sep with
      | some m => some m
      | none => (Index r sep).map (· + (a.length + 1)) := by
  induction a with
  | nil =>
    have hp : sep.isPrefixOf (q :: r) = false := by
      cases sep with
      | nil => exact absurd rfl hne
      | cons h t =>
        have hh : h ≠ q := fun e => hq (by simp [e])
        simp [List.isPrefixOf, hh]
    simp [Index_nil hne, Index_cons_of_not_isPrefixOf hp]
  | cons c a ih =>
    by_cases hp : sep.isPrefixOf (c :: a) = true
    · have hp2 : sep.isPrefixOf (c :: a ++ q :: r) = true := by
        rw [isPrefixOf_append_cons sep hq]; exact hp
      rw [Index_of_isPrefixOf hp2, Index_of_isPrefixOf hp]
    · have hp1 : sep.isPrefixOf (c :: a) = false := Bool.eq_false_iff.mpr hp
      have hp2 : sep.isPrefixOf (c :: (a ++ q :: r)) = false := by
        have := isPrefixOf_append_cons sep hq (c :: a) r
        rw [List.cons_append] at this
        rw [this, hp1]
      rw [List.cons_append, Index_cons_of_not_isPrefixOf hp2, Index_cons_of_not_isPrefixOf hp1, ih]
      cases Index a sep with
      | some m => simp
      | none => cases Index r sep <;> simp [Nat.add_assoc, Nat.add_comm, Nat.add_left_comm]

theorem Index_none_iff {s sep : Str} :
    Index s sep = none ↔ ∀ i, sep.isPrefixOf (s.drop i) = false := by
  induction s with
  | nil =>
    constructor
    · intro h i
      by_contra hc
      simp [Index] at h
      simp at hc
      simp [hc] at h
    · intro h
      have := h 0
      simp at this
      simp [Index, this]
  | cons c cs ih =>
    constructor
    · intro h i
      by_cases hp : sep.isPrefixOf (c :: cs) = true
      · rw [Index_of_isPrefixOf hp] at h; cases h
      · have hp1 : sep.isPrefixOf (c :: cs) = false := Bool.eq_false_iff.mpr hp
        rw [Index_cons_of_not_isPrefixOf hp1] at h
        have h2 : Index cs sep = none := by simpa using h
        cases i with
        | zero => simpa using hp1
        | succ i => simpa using ih.mp h2 i
    · intro h
      have hp1 : sep.isPrefixOf (c :: cs) = false := by simpa using h 0
      rw [Index_cons_of_not_isPrefixOf hp1]
      have : Index cs sep = none := ih.mpr (fun i => by simpa using h (i + 1))
      simp [this]

theorem Index_eq_some_of_first {sep : Str} (n : Nat) (s : Str)
    (hp : sep.isPrefixOf (s.drop n) = true)
    (hlt : ∀ i, i < n → sep.isPrefixOf (s.drop i) = false) :
    Index s sep = some n := by
  induction n generalizing s with
  | zero => exact Index_of_isPrefixOf (by simpa using hp)
  | succ n ih =>
    have h0 : sep.isPrefixOf s = false := by simpa using hlt 0 (Nat.succ_pos n)
    cases s with
    | nil => simp at hp; simp [hp] at h0
    | cons c cs =>
      rw [Index_cons_of_not_isPrefixOf h0, ih cs (by simpa using hp)
        (fun i hi => by simpa using hlt (i + 1) (Nat.succ_lt_succ hi))]
      simp

theorem Index_some_decomp {sep : Str} (s : Str) (m : Nat) (h : Index s sep = some m) :
    s = s.take m ++ sep ++ s.drop (m + sep.length) ∧
      ∀ i, i < m → sep.isPrefixOf (s.drop i) = false := by
  induction s generalizing m with
  | nil =>
    simp [Index] at h
    obtain ⟨h1, h2⟩ := h
    subst h2
    simp [h1]
  | cons c cs ih =>
    by_cases hp : sep.isPrefixOf (c :: cs) = true
    · rw [Index_of_isPrefixOf hp] at h
      cases h
      obtain ⟨t, ht⟩ := List.isPrefixOf_iff_prefix.mp hp
      refine ⟨?_, fun i hi => absurd hi (Nat.not_lt_zero i)⟩
      simp only [List.take_zero, List.nil_append, Nat.zero_add]
      rw [← ht]; simp
    · have hp1 : sep.isPrefixOf (c :: cs) = false := Bool.eq_false_iff.mpr hp
      rw [Index_cons_of_not_isPrefixOf hp1] at h
      cases hi : Index cs sep with
      | none => simp [hi] at h
      | some m' =>
        simp [hi] at h
        subst h
        obtain ⟨h1, h2⟩ := ih m' hi
        refine ⟨?_, ?_⟩
        · have : m' + 1 + sep.length = (m' + sep.length) + 1 := by omega
          rw [this]
          simp only [List.take_succ_cons, List.drop_succ_cons, List.cons_append]
          rw [← h1]
        · intro i hi2
          cases i with
          | zero => simpa using hp1
          | succ i => simpa using h2 i (by omega)

theorem Index_some_length {sep s : Str} {m : Nat} (hne : sep ≠ []) (h : Index s sep = some m) :
    m + sep.length ≤ s.length := by
  have hl := congrArg List.length (Index_some_decomp s m h).1
  have hs : 0 < sep.length := List.length_pos.mpr hne
  simp only [List.length_append, List.length_take, List.length_drop] at hl
  omega

/-! ## Facts about `Split` and `Replace` -/

theorem splitLoop_succ {sep : Str} (hne : sep ≠ []) (n : Nat) (s : Str) (hn : s.length ≤ n) :
    splitLoop sep (n + 1) s = splitLoop sep n s := by
  induction n generalizing s with
  | zero =>
    have : s = [] := List.length_eq_zero.mp (Nat.le_zero.mp hn)
    subst this
    simp [splitLoop, Index_nil hne]
  | succ n ih =>
    rw [splitLoop, splitLoop]
    cases hI : Index s sep with
    | none => rfl
    | some m =>
      have := Index_some_length hne hI
      have hs : 0 < sep.length := List.length_pos.mpr hne
      simp only
      rw [ih]
      simp only [List.length_drop]
      omega

theorem splitLoop_fuel {sep : Str} (hne : sep ≠ []) (n : Nat) (s : Str) (hn : s.length ≤ n) :
    splitLoop sep n s = splitLoop sep s.length s := by
  induction n with
  | zero =>
    have : s.length = 0 := Nat.le_zero.mp hn
    rw [this]
  | succ n ih =>
    by_cases h : s.length = n + 1
    · rw [h]
    · rw [splitLoop_succ hne n s (by omega)]
      exact ih (by omega)

theorem Split_none {s sep : Str} (hne : sep ≠ []) (h : Index s sep = none) :
    Split s sep = [s] := by
  unfold Split
  rw [if_neg hne]
  cases s.length <;> simp [splitLoop, h]

theorem Split_some {s sep : Str} {m : Nat} (hne : sep ≠ []) (h : Index s sep = some m) :
    Split s sep = s.take m :: Split (s.drop (m + sep.length)) sep := by
  have hlen := Index_some_length hne h
  have hs : 0 < sep.length := List.length_pos.mpr hne
  unfold Split
  rw [if_neg hne, if_neg hne]
  obtain ⟨k, hk⟩ : ∃ k, s.length = k + 1 := ⟨s.length - 1, by omega⟩
  rw [hk, splitLoop]
  simp only [h]
  rw [splitLoop_fuel hne k]
  simp only [List.length_drop]
  omega

theorem replaceLoop_succ {old new : Str} (hne : old ≠ []) (n : Nat) (s : Str)
    (hn : s.length ≤ n) : replaceLoop old new (n + 1) s = replaceLoop old new n s := by
  induction n generalizing s with
  | zero =>
    have : s = [] := List.length_eq_zero.mp (Nat.le_zero.mp hn)
    subst this
    simp [replaceLoop, Index_nil hne]
  | succ n ih =>
    rw [replaceLoop, replaceLoop]
    cases hI : Index s old with
    | none => rfl
    | some m =>
      have := Index_some_length hne hI
      have hs : 0 < old.length := List.length_pos.mpr hne
      simp only
      rw [ih]
      simp only [List.length_drop]
      omega

theorem replaceLoop_fuel {old new : Str} (hne : old ≠ []) (n : Nat) (s : Str)
    (hn : s.length ≤ n) : replaceLoop old new n s = replaceLoop old new s.length s := by
  induction n with
  | zero =>
    have : s.length = 0 := Nat.le_zero.mp hn
    rw [this]
  | succ n ih =>
    by_cases h : s.length = n + 1
    · rw [h]
    · rw [replaceLoop_succ hne n s (by omega)]
      exact ih (by omega)

theorem Replace_none {s old new : Str} (hne : old ≠ []) (h : Index s old = none) :
    Replace s old new = s := by
  unfold Replace
  split
  · rfl
  · cases s.length <;> simp [replaceLoop, h]

theorem Replace_some {s old new : Str} {j : Nat} (hne : old ≠ []) (hon : old ≠ new)
    (h : Index s old = some j) :
    Replace s old new = s.take j ++ new ++ Replace (s.drop (j + old.length)) old new := by
  have hlen := Index_some_length hne h
  have hs : 0 < old.length := List.length_pos.mpr hne
  unfold Replace
  rw [if_neg hon, if_neg hne, if_neg hon, if_neg hne]
  obtain ⟨k, hk⟩ : ∃ k, s.length = k + 1 := ⟨s.length - 1, by omega⟩
  rw [hk, replaceLoop]
  simp only [h]
  rw [replaceLoop_fuel hne k]
  simp only [List.length_drop]
  omega

/-! ## Facts about the payload pipeline -/

theorem Replace_space_of_not_mem {p : Str} (h : ' ' ∉ p) : Replace p " ".toList [] = p := by
  apply Replace_none (by decide)
  have := Index_skip (h := ' ') (t := []) p [] h
  rw [List.append_nil] at this
  rw [show " ".toList = [' '] from rfl, this, Index_nil (by decide)]
  rfl

theorem escapesWellFormed_of_not_mem {p : Str} (h : '%' ∉ p) : escapesWellFormed p = true := by
  induction p with
  | nil => rfl
  | cons c cs ih =>
    have hc : c ≠ '%' := fun e => h (by simp [e])
    have hcs : '%' ∉ cs := fun e => h (by simp [e])
    rw [escapesWellFormed.eq_def]
    simp only [if_neg hc]
    exact ih hcs

theorem unescapeCopy_of_not_mem {p : Str} (h : '%' ∉ p) : unescapeCopy p = p := by
  induction p with
  | nil => rfl
  | cons c cs ih =>
    have hc : c ≠ '%' := fun e => h (by simp [e])
    have hcs : '%' ∉ cs := fun e => h (by simp [e])
    rw [unescapeCopy.eq_def]
    simp only [if_neg hc, ih hcs]

theorem PathUnescape_of_not_mem {p : Str} (h : '%' ∉ p) : PathUnescape p = some p := by
  simp [PathUnescape, escapesWellFormed_of_not_mem h, unescapeCopy_of_not_mem h]

theorem skipNewlines_nil {x : Char} (h1 : x ≠ '\n') (h2 : x ≠ '\r') :
    ∀ s : Str, skipNewlines s = [] → x ∉ s
  | [], _ => by simp
  | c :: cs, h => by
    rw [skipNewlines] at h
    split at h
    · rename_i hc
      have ih := skipNewlines_nil h1 h2 cs h
      intro hm
      rcases List.mem_cons.mp hm with e | e
      · subst e
        rcases hc with hc | hc
        · exact h1 hc
        · exact h2 hc
      · exact ih e
    · cases h

theorem skipNewlines_cons {x : Char} (h1 : x ≠ '\n') (h2 : x ≠ '\r') :
    ∀ (s : Str) (e : Char) (rest : Str), skipNewlines s = e :: rest → x ∈ s → x = e ∨ x ∈ rest
  | [], _, _, h => by simp [skipNewlines] at h
  | c :: cs, e, rest, h => by
    rw [skipNewlines] at h
    intro hm
    split at h
    · rename_i hc
      rcases List.mem_cons.mp hm with e1 | e1
      · subst e1
        rcases hc with hc | hc
        · exact absurd hc h1
        · exact absurd hc h2
      · exact skipNewlines_cons h1 h2 cs e rest h e1
    · cases h
      simpa using hm

/-- A string that `DecodeString` accepts holds only characters of the alphabet, padding and
newlines. -/
theorem decodeLoop_not_mem {x : Char} (hx : decodeMap x = none) (h1 : x ≠ '\n') (h2 : x ≠ '\r')
    (h3 : x ≠ '=') :
    ∀ (s : Str) (q out b : List Nat), decodeLoop s q out = some b → x ∉ s
  | [], _, _, _, _ => by simp
  | c :: cs, q, out, b, h => by
    intro hm
    have hxs (hne : x ≠ c) : x ∈ cs := by
      rcases List.mem_cons.mp hm with e | e
      · exact absurd e hne
      · exact e
    rw [decodeLoop] at h
    cases hd : decodeMap c with
    | some v =>
      have hne : x ≠ c := fun e => by rw [e, hd] at hx; cases hx
      simp only [hd] at h
      split at h <;> exact decodeLoop_not_mem hx h1 h2 h3 cs _ _ _ h (hxs hne)
    | none =>
      simp only [hd] at h
      by_cases hn : c = '\n' ∨ c = '\r'
      · have hne : x ≠ c := by
          rcases hn with e | e
          · exact fun e2 => h1 (e2.trans e)
          · exact fun e2 => h2 (e2.trans e)
        rw [if_pos hn] at h
        exact decodeLoop_not_mem hx h1 h2 h3 cs _ _ _ h (hxs hne)
      · rw [if_neg hn] at h
        by_cases he : c = '='
        · have hne : x ≠ c := fun e2 => h3 (e2.trans he)
          rw [if_neg (by simp [he]), decodePadding] at h
          split at h
          · cases h
          · split at h
            · split at h
              · cases h
              · rename_i e rest hsk
                by_cases he2 : e = '='
                · rw [if_neg (by simp [he2])] at h
                  by_cases hr : skipNewlines rest = []
                  · rcases skipNewlines_cons h1 h2 cs e rest hsk (hxs hne) with e1 | e1
                    · exact h3 (e1.trans he2)
                    · exact skipNewlines_nil h1 h2 rest hr e1
                  · rw [if_neg hr] at h; cases h
                · rw [if_pos he2] at h; cases h
            · by_cases hr : skipNewlines cs = []
              · exact skipNewlines_nil h1 h2 cs hr (hxs hne)
              · rw [if_neg hr] at h; cases h
        · rw [if_pos he] at h; cases h

theorem DecodeString_not_mem {x : Char} (hx : decodeMap x = none) (h1 : x ≠ '\n')
    (h2 : x ≠ '\r') (h3 : x ≠ '=') {s : Str} {b : List Nat} (h : DecodeString s = some b) :
    x ∉ s :=
  decodeLoop_not_mem hx h1 h2 h3 s [] [] b h

/-! ## Occurrences, stated with prefixes and infixes -/

theorem Index_none_of_absent {s sep : Str} (h : ¬ sep <:+: s) : Index s sep = none := by
  rw [Index_none_iff]
  intro i
  apply Bool.eq_false_iff.mpr
  intro hp
  exact h ((List.isPrefixOf_iff_prefix.mp hp).isInfix.trans (List.drop_suffix i s).isInfix)

theorem Index_none_of_not_mem {s sep : Str} {z : Char} (hz : z ∈ sep) (hs : z ∉ s) :
    Index s sep = none :=
  Index_none_of_absent (fun h => hs (h.subset hz))

theorem Index_isSome_of_prefix_drop {s sep : Str} (i : Nat) (h : sep <+: s.drop i) :
    (Index s sep).isSome = true := by
  cases hI : Index s sep with
  | some m => rfl
  | none =>
    have := Index_none_iff.mp hI i
    rw [List.isPrefixOf_iff_prefix.mpr h] at this
    cases this

/-- The separator is first found behind `a` when its last character occurs neither in `a` nor
earlier in the separator. -/
theorem Index_append_of_last {z : Char} {t : Str} (a rest : Str) (hza : z ∉ a) (hzt : z ∉ t) :
    Index (a ++ (t ++ [z]) ++ rest) (t ++ [z]) = some a.length := by
  apply Index_eq_some_of_first
  · rw [List.append_assoc, List.drop_left]
    exact List.isPrefixOf_iff_prefix.mpr (List.prefix_append _ _)
  · intro i hi
    apply Bool.eq_false_iff.mpr
    intro hp
    have hpre := List.isPrefixOf_iff_prefix.mp hp
    rw [List.append_assoc, List.drop_append_of_le_length (Nat.le_of_lt hi)] at hpre
    have hmem : z ∈ t ++ [z] := by simp
    rw [List.prefix_iff_eq_take.mp hpre] at hmem
    have hlen : (t ++ [z]).length ≤ (List.drop i a ++ t).length := by
      simp only [List.length_append, List.length_drop, List.length_singleton]
      omega
    have hre : List.drop i a ++ (t ++ [z] ++ rest) = (List.drop i a ++ t) ++ ([z] ++ rest) := by
      simp
    rw [hre, List.take_append_of_le_length hlen] at hmem
    rcases List.mem_append.mp (List.mem_of_mem_take hmem) with h1 | h1
    · exact hza (List.mem_of_mem_drop h1)
    · exact hzt h1

/-! ## The image loop on a body with one `<img src="` -/

theorem Split_one_open (pre seg : Str)
    (hocc : ∀ i, imgOpen <+: (pre ++ imgOpen ++ seg).drop i → i = pre.length) :
    Split (pre ++ imgOpen ++ seg) imgOpen = [pre, seg] := by
  have hne : imgOpen ≠ [] := by decide
  have h1 : Index (pre ++ imgOpen ++ seg) imgOpen = some pre.length := by
    apply Index_eq_some_of_first
    · rw [List.append_assoc, List.drop_left]
      exact List.isPrefixOf_iff_prefix.mpr (List.prefix_append _ _)
    · intro i hi
      apply Bool.eq_false_iff.mpr
      intro hp
      have := hocc i (List.isPrefixOf_iff_prefix.mp hp)
      omega
  have h2 : Index seg imgOpen = none := by
    rw [Index_none_iff]
    intro i
    apply Bool.eq_false_iff.mpr
    intro hp
    have hd : (pre ++ imgOpen ++ seg).drop ((pre ++ imgOpen).length + i) = seg.drop i :=
      List.drop_append i
    have := hocc ((pre ++ imgOpen).length + i) (by rw [hd]; exact List.isPrefixOf_iff_prefix.mp hp)
    have h10 : imgOpen.length = 10 := by decide
    simp only [List.length_append, h10] at this
    omega
  rw [Split_some hne h1]
  have e1 : List.take pre.length (pre ++ imgOpen ++ seg) = pre := by
    rw [List.append_assoc, List.take_left]
  have e2 : List.drop (pre.length + imgOpen.length) (pre ++ imgOpen ++ seg) = seg := by
    rw [← List.length_append, List.drop_left]
  rw [e1, e2, Split_none hne h2]

theorem connectSlackBody_one_open (config : Configuration) (StripTags : Str → Str)
    (pre seg : Str) (hpre : HasPrefix pre dataImage = false)
    (hocc : ∀ i, imgOpen <+: (pre ++ imgOpen ++ seg).drop i → i = pre.length) :
    connectSlackBody config StripTags (pre ++ imgOpen ++ seg) =
      match imageLoop [seg] [] with
      | .panic calls => .panic calls
      | .done calls =>
        .done (calls ++
          [.PostMessage config.SlackChannel (StripTags (pre ++ imgOpen ++ seg)) true]) := by
  have hne : pre ++ imgOpen ++ seg ≠ [] := by
    intro h
    have := congrArg List.length h
    have h10 : imgOpen.length = 10 := by decide
    simp only [List.length_append, h10, List.length_nil] at this
    omega
  have hc : Contains (pre ++ imgOpen ++ seg) "<img src=".toList = true := by
    apply Index_isSome_of_prefix_drop pre.length
    rw [List.append_assoc, List.drop_left]
    exact ⟨'"' :: seg, rfl⟩
  unfold connectSlackBody
  rw [if_pos hne]
  simp only [hc, if_true, Split_one_open pre seg hocc]
  rw [imageLoop, if_neg (by simp [hpre])]

theorem imageLoop_one (seg b t : Str) (calls : List SlackCall)
    (hseg : HasPrefix seg dataImage = true)
    (h1 : (Split seg base64Marker).get? 1 = some b)
    (h0 : (Split b imgClose).get? 0 = some t) :
    imageLoop [seg] calls =
      .done (calls ++
        match DecodeString ((PathUnescape (Replace t " ".toList [])).getD []) with
        | none => []
        | some decoded => [.UploadFile "Mumble Image ".toList decoded]) := by
  rw [imageLoop, if_pos hseg]
  simp only [h1, h0]
  cases DecodeString ((PathUnescape (Replace t " ".toList [])).getD []) <;> simp [imageLoop]

/-- The first `base64,` of a segment `data:image/` + type + `base64,` + ... is the one behind
the type, when the type holds no comma. -/
theorem Split_segment (mime rest : Str) (hm : ',' ∉ mime) :
    Split (dataImage ++ mime ++ base64Marker ++ rest) base64Marker =
      (dataImage ++ mime) :: Split rest base64Marker := by
  have hI : Index (dataImage ++ mime ++ base64Marker ++ rest) base64Marker =
      some (dataImage ++ mime).length :=
    Index_append_of_last (z := ',') (t := "base64".toList) (dataImage ++ mime) rest
      (by
        intro h
        rcases List.mem_append.mp h with h | h
        · revert h; decide
        · exact hm h)
      (by decide)
  rw [Split_some (by decide) hI]
  have e1 : List.take (dataImage ++ mime).length (dataImage ++ mime ++ base64Marker ++ rest) =
      dataImage ++ mime := by
    rw [List.append_assoc, List.take_left]
  have e2 : List.drop ((dataImage ++ mime).length + base64Marker.length)
      (dataImage ++ mime ++ base64Marker ++ rest) = rest := by
    rw [← List.length_append, List.drop_left]
  rw [e1, e2]

theorem HasPrefix_segment (mime rest : Str) :
    HasPrefix (dataImage ++ mime ++ base64Marker ++ rest) dataImage = true := by
  unfold HasPrefix
  rw [List.append_assoc, List.append_assoc]
  exact List.isPrefixOf_iff_prefix.mpr (List.prefix_append _ _)

/-- The payload of a closed element: what stands between `base64,` and `"/>`. -/
theorem payload_closed (p txt : Str) (hq : '"' ∉ p) (hb : Index p base64Marker = none) :
    ∃ b, (Split (p ++ imgClose ++ txt) base64Marker).get? 0 = some b ∧
      (Split b imgClose).get? 0 = some p := by
  have hclose : ∀ y : Str, (Split (p ++ imgClose ++ y) imgClose).get? 0 = some p := by
    intro y
    have hI : Index (p ++ (imgClose ++ y)) imgClose = some p.length := by
      have := Index_skip (h := '"') (t := "/>".toList) p (imgClose ++ y) hq
      rw [show ('"' :: "/>".toList) = imgClose from rfl] at this
      rw [this, Index_of_isPrefixOf (List.isPrefixOf_iff_prefix.mpr (List.prefix_append _ _))]
      simp
    rw [List.append_assoc, Split_some (by decide) hI, List.take_left]
    rfl
  have hskip : Index ("/>".toList ++ txt) base64Marker =
      (Index txt base64Marker).map (· + 2) :=
    Index_skip (h := 'b') (t := "ase64,".toList) "/>".toList txt (by decide)
  have hI : Index (p ++ imgClose ++ txt) base64Marker =
      (Index txt base64Marker).map (· + (p.length + 3)) := by
    have := @Index_append_cons '"' base64Marker (by decide) (by decide) p
      ("/>".toList ++ txt)
    rw [hb, hskip] at this
    rw [show p ++ imgClose ++ txt = p ++ '"' :: ("/>".toList ++ txt) by simp [imgClose]]
    rw [this]
    cases Index txt base64Marker <;> simp
    omega
  cases hT : Index txt base64Marker with
  | none =>
    rw [hT] at hI
    refine ⟨p ++ imgClose ++ txt, ?_, hclose txt⟩
    rw [Split_none (by decide) hI]
    rfl
  | some m =>
    rw [hT] at hI
    refine ⟨p ++ imgClose ++ txt.take m, ?_, hclose _⟩
    have : List.take (m + (p.length + 3)) (p ++ imgClose ++ txt) =
        p ++ imgClose ++ List.take m txt := by
      have e : m + (p.length + 3) = (p ++ imgClose).length + m := by
        simp [imgClose]; omega
      rw [e, List.take_append]
    rw [Option.map_some'] at hI
    rw [Split_some (by decide) hI, this]
    rfl

/-- The payload of an element that is not closed: all that follows `base64,`. -/
theorem payload_open (r : Str) (hc : Index r imgClose = none)
    (hb : Index r base64Marker = none) :
    (Split r base64Marker).get? 0 = some r ∧ (Split r imgClose).get? 0 = some r := by
  rw [Split_none (by decide) hb, Split_none (by decide) hc]
  exact ⟨rfl, rfl⟩

/-- What the image loop does with a segment `data:image/` + type + `base64,` + `rest`, in
terms of the payload `t` cut out of `rest`. -/
theorem imageLoop_segment (mime rest b t : Str) (hm : ',' ∉ mime)
    (h1 : (Split rest base64Marker).get? 0 = some b)
    (h0 : (Split b imgClose).get? 0 = some t) :
    imageLoop [dataImage ++ mime ++ base64Marker ++ rest] [] =
      .done (match DecodeString ((PathUnescape (Replace t " ".toList [])).getD []) with
        | none => []
        | some decoded => [.UploadFile "Mumble Image ".toList decoded]) := by
  rw [imageLoop_one _ b t [] (HasPrefix_segment mime rest) _ h0]
  · rfl
  · rw [Split_segment mime rest hm]
    exact h1

/-- To know all the places where `sep` occurs in `s`, it is enough to look at the positions up
to the length of `s`. -/
theorem occurs_only_at {s sep : Str} {n : Nat} (hne : sep ≠ [])
    (h : ∀ i ∈ List.range (s.length + 1), sep.isPrefixOf (s.drop i) = true → i = n) :
    ∀ i, sep <+: s.drop i → i = n := by
  intro i hp
  by_cases hi : i < s.length + 1
  · exact h i (List.mem_range.mpr hi) (List.isPrefixOf_iff_prefix.mpr hp)
  · rw [List.drop_eq_nil_of_le (by omega)] at hp
    exact absurd (List.prefix_nil.mp hp) hne

theorem HasPrefix_eq_false {s pre : Str} (h : ¬ pre <+: s) :
    HasPrefix s pre = false :=
  Bool.eq_false_iff.mpr (fun hp => h (List.isPrefixOf_iff_prefix.mp hp))

/-- C1, as amended.  Image round-trip: a body `pre ++ <img src="data:image/png;base64,P"/> ++ txt`
that does not itself begin with `data:image/`, in which `P` is accepted by the base64 decoder
and holds no space and no `%`, and in which `<img src="` occurs at one place only, is handled
by exactly one upload of the decoded bytes of `P` followed by one post of the tag-stripped
body to the configured channel. -/
theorem image_round_trip (config : Configuration) (StripTags : Str → Str)
    (pre P txt : Str) (bytes : List Nat)
    (hpre : ¬ dataImage <+: pre)
    (hP : DecodeString P = some bytes) (hsp : ' ' ∉ P) (hpc : '%' ∉ P)
    (hocc : ∀ i, imgOpen <+:
      (pre ++ imgOpen ++ "data:image/png;base64,".toList ++ P ++ imgClose ++ txt).drop i →
        i = pre.length) :
    connectSlackBody config StripTags
        (pre ++ imgOpen ++ "data:image/png;base64,".toList ++ P ++ imgClose ++ txt) =
      .done [.UploadFile "Mumble Image ".toList bytes,
        .PostMessage config.SlackChannel
          (StripTags (pre ++ imgOpen ++ "data:image/png;base64,".toList ++ P ++ imgClose ++ txt))
          true] := by
  have hbody : pre ++ imgOpen ++ "data:image/png;base64,".toList ++ P ++ imgClose ++ txt =
      pre ++ imgOpen ++ (dataImage ++ "png;".toList ++ base64Marker ++ (P ++ imgClose ++ txt)) := by
    rw [show "data:image/png;base64,".toList = dataImage ++ "png;".toList ++ base64Marker from rfl]
    simp only [List.append_assoc]
  rw [hbody] at hocc ⊢
  have hq : '"' ∉ P := DecodeString_not_mem (by decide) (by decide) (by decide) (by decide) hP
  have hc : ',' ∉ P := DecodeString_not_mem (by decide) (by decide) (by decide) (by decide) hP
  obtain ⟨b, h1, h0⟩ := payload_closed P txt hq
    (Index_none_of_not_mem (z := ',') (by decide) hc)
  rw [connectSlackBody_one_open config StripTags pre _ (HasPrefix_eq_false hpre) hocc,
    imageLoop_segment "png;".toList _ b P (by decide) h1 h0,
    Replace_space_of_not_mem hsp, PathUnescape_of_not_mem hpc]
  simp only [Option.getD_some, hP]
  rfl

/-- C1, witness: `bob: <img src="data:image/png;base64,AAAA"/> look` gives one upload of the
bytes 0, 0, 0 and one post. -/
theorem image_round_trip_witness :
    connectSlackBody ⟨"xoxb".toList, "general".toList⟩ (fun s => s)
        ("bob: ".toList ++ imgOpen ++ "data:image/png;base64,".toList ++ "AAAA".toList ++
          imgClose ++ " look".toList) =
      .done [.UploadFile "Mumble Image ".toList [0, 0, 0],
        .PostMessage "general".toList
          ("bob: ".toList ++ imgOpen ++ "data:image/png;base64,".toList ++ "AAAA".toList ++
            imgClose ++ " look".toList) true] :=
  image_round_trip ⟨"xoxb".toList, "general".toList⟩ (fun s => s) "bob: ".toList "AAAA".toList
    " look".toList [0, 0, 0] (by decide) (by decide) (by decide) (by decide)
    (occurs_only_at (by decide) (by decide))

/-- C1, as stated, fails: nothing in it keeps the text before the image from beginning with
`data:image/` itself, and line 48 tests every piece of the split, the first one too.  The body
`data:image/png;base64,AAAA"/>: <img src="data:image/png;base64,AAAA"/>hi` (the message
`<img src="data:image/png;base64,AAAA"/>hi` of a user named `data:image/png;base64,AAAA"/>`)
has one `<img src="` and a valid payload, and is handled by two uploads. -/
theorem image_round_trip_needs_prefix :
    ¬ ∀ (config : Configuration) (StripTags : Str → Str) (pre P txt : Str) (bytes : List Nat),
      DecodeString P = some bytes → ' ' ∉ P → '%' ∉ P →
      (∀ i, imgOpen <+:
        (pre ++ imgOpen ++ "data:image/png;base64,".toList ++ P ++ imgClose ++ txt).drop i →
          i = pre.length) →
      connectSlackBody config StripTags
          (pre ++ imgOpen ++ "data:image/png;base64,".toList ++ P ++ imgClose ++ txt) =
        .done [.UploadFile "Mumble Image ".toList bytes,
          .PostMessage config.SlackChannel
            (StripTags
              (pre ++ imgOpen ++ "data:image/png;base64,".toList ++ P ++ imgClose ++ txt))
            true] := by
  intro h
  have := h ⟨"xoxb".toList, "general".toList⟩ (fun s => s)
    "data:image/png;base64,AAAA\"/>: ".toList "AAAA".toList "hi".toList [0, 0, 0]
    (by decide) (by decide) (by decide) (occurs_only_at (by decide) (by decide))
  revert this
  decide

/-- C5, as amended.  Malformed image payload: in a body
`pre ++ <img src="data:image/` type `base64,` P `"/>` `++ txt` that does not begin with
`data:image/`, with one `<img src="`, no comma in the type, and neither `"` nor `base64,` in
`P`: when `P`, with its spaces removed and its percent escapes undone (the empty string when
an escape is ill-formed), is rejected by the base64 decoder, no upload is made and the
tag-stripped body is posted exactly once. -/
theorem malformed_payload_skipped (config : Configuration) (StripTags : Str → Str)
    (pre mime P txt : Str)
    (hpre : ¬ dataImage <+: pre) (hm : ',' ∉ mime)
    (hq : '"' ∉ P) (hb : ¬ base64Marker <:+: P)
    (hocc : ∀ i, imgOpen <+:
      (pre ++ imgOpen ++ (dataImage ++ mime ++ base64Marker ++ (P ++ imgClose ++ txt))).drop i →
        i = pre.length)
    (hbad : DecodeString ((PathUnescape (Replace P " ".toList [])).getD []) = none) :
    connectSlackBody config StripTags
        (pre ++ imgOpen ++ (dataImage ++ mime ++ base64Marker ++ (P ++ imgClose ++ txt))) =
      .done [.PostMessage config.SlackChannel
        (StripTags
          (pre ++ imgOpen ++ (dataImage ++ mime ++ base64Marker ++ (P ++ imgClose ++ txt))))
        true] := by
  obtain ⟨b, h1, h0⟩ := payload_closed P txt hq (Index_none_of_absent hb)
  rw [connectSlackBody_one_open config StripTags pre _ (HasPrefix_eq_false hpre) hocc,
    imageLoop_segment mime _ b P hm h1 h0, hbad]
  rfl

/-- C5, witness: the payload `AAA` is rejected, so
`bob: <img src="data:image/png;base64,AAA"/> look` is handled by the post alone. -/
theorem malformed_payload_skipped_witness :
    connectSlackBody ⟨"xoxb".toList, "general".toList⟩ (fun s => s)
        ("bob: ".toList ++ imgOpen ++
          (dataImage ++ "png;".toList ++ base64Marker ++
            ("AAA".toList ++ imgClose ++ " look".toList))) =
      .done [.PostMessage "general".toList
        ("bob: ".toList ++ imgOpen ++
          (dataImage ++ "png;".toList ++ base64Marker ++
            ("AAA".toList ++ imgClose ++ " look".toList))) true] :=
  malformed_payload_skipped ⟨"xoxb".toList, "general".toList⟩ (fun s => s) "bob: ".toList
    "png;".toList "AAA".toList " look".toList (by decide) (by decide) (by decide) (by decide)
    (occurs_only_at (by decide) (by decide)) (by decide)

/-- C5, as stated, fails: the payload `AA AA` is not a standard base64 encoding (the decoder
rejects it), but line 52 removes the space before decoding, and
`bob: <img src="data:image/png;base64,AA AA"/> look` is handled by an upload of the bytes
0, 0, 0 and the post. -/
theorem malformed_payload_is_normalised_first :
    ¬ ∀ (config : Configuration) (StripTags : Str → Str) (pre mime P txt : Str),
      ¬ dataImage <+: pre → ',' ∉ mime → '"' ∉ P → ¬ base64Marker <:+: P →
      (∀ i, imgOpen <+:
        (pre ++ imgOpen ++ (dataImage ++ mime ++ base64Marker ++ (P ++ imgClose ++ txt))).drop i →
          i = pre.length) →
      DecodeString P = none →
      connectSlackBody config StripTags
          (pre ++ imgOpen ++ (dataImage ++ mime ++ base64Marker ++ (P ++ imgClose ++ txt))) =
        .done [.PostMessage config.SlackChannel
          (StripTags
            (pre ++ imgOpen ++ (dataImage ++ mime ++ base64Marker ++ (P ++ imgClose ++ txt))))
          true] := by
  intro h
  have := h ⟨"xoxb".toList, "general".toList⟩ (fun s => s) "bob: ".toList "png;".toList
    "AA AA".toList " look".toList (by decide) (by decide) (by decide) (by decide)
    (occurs_only_at (by decide) (by decide)) (by decide)
  revert this
  decide

/-- C9, as amended.  Missing closing delimiter: in a body
`pre ++ <img src="data:image/` type `base64,` `++ r` that does not begin with `data:image/`,
with one `<img src="`, no comma in the type, and neither `"/>` nor a further `base64,` in `r`,
the whole of `r` is taken as the payload: when `r`, with its spaces removed and its percent
escapes undone, is accepted by the base64 decoder, the decoded bytes are uploaded, otherwise
nothing is; then the tag-stripped whole body is posted. -/
theorem unclosed_image_payload_runs_to_end (config : Configuration) (StripTags : Str → Str)
    (pre mime r : Str)
    (hpre : ¬ dataImage <+: pre) (hm : ',' ∉ mime)
    (hc : ¬ imgClose <:+: r) (hb : ¬ base64Marker <:+: r)
    (hocc : ∀ i, imgOpen <+:
      (pre ++ imgOpen ++ (dataImage ++ mime ++ base64Marker ++ r)).drop i → i = pre.length) :
    connectSlackBody config StripTags
        (pre ++ imgOpen ++ (dataImage ++ mime ++ base64Marker ++ r)) =
      .done ((match DecodeString ((PathUnescape (Replace r " ".toList [])).getD []) with
          | none => []
          | some decoded => [.UploadFile "Mumble Image ".toList decoded]) ++
        [.PostMessage config.SlackChannel
          (StripTags (pre ++ imgOpen ++ (dataImage ++ mime ++ base64Marker ++ r))) true]) := by
  obtain ⟨h1, h0⟩ := payload_open r (Index_none_of_absent hc) (Index_none_of_absent hb)
  rw [connectSlackBody_one_open config StripTags pre _ (HasPrefix_eq_false hpre) hocc,
    imageLoop_segment mime _ r r hm h1 h0]

/-- C9, witness: `bob: <img src="data:image/png;base64,AAAA` is handled by an upload of the
bytes 0, 0, 0 and the post. -/
theorem unclosed_image_payload_runs_to_end_witness :
    connectSlackBody ⟨"xoxb".toList, "general".toList⟩ (fun s => s)
        ("bob: ".toList ++ imgOpen ++ (dataImage ++ "png;".toList ++ base64Marker ++
          "AAAA".toList)) =
      .done ([.UploadFile "Mumble Image ".toList [0, 0, 0]] ++
        [.PostMessage "general".toList
          ("bob: ".toList ++ imgOpen ++ (dataImage ++ "png;".toList ++ base64Marker ++
            "AAAA".toList)) true]) :=
  unclosed_image_payload_runs_to_end ⟨"xoxb".toList, "general".toList⟩ (fun s => s)
    "bob: ".toList "png;".toList "AAAA".toList (by decide) (by decide) (by decide) (by decide)
    (occurs_only_at (by decide) (by decide))

/-- C9, as stated, fails: `bob: <img src="data:image/png;base64,AAAA` has no `"/>`, and an
upload is made all the same. -/
theorem unclosed_image_is_still_uploaded :
    ¬ ∀ (config : Configuration) (StripTags : Str → Str) (pre mime r : Str),
      ¬ dataImage <+: pre → ',' ∉ mime → ¬ imgClose <:+: r → ¬ base64Marker <:+: r →
      (∀ i, imgOpen <+:
        (pre ++ imgOpen ++ (dataImage ++ mime ++ base64Marker ++ r)).drop i → i = pre.length) →
      connectSlackBody config StripTags
          (pre ++ imgOpen ++ (dataImage ++ mime ++ base64Marker ++ r)) =
        .done [.PostMessage config.SlackChannel
          (StripTags (pre ++ imgOpen ++ (dataImage ++ mime ++ base64Marker ++ r))) true] := by
  intro h
  have := h ⟨"xoxb".toList, "general".toList⟩ (fun s => s) "bob: ".toList "png;".toList
    "AAAA".toList (by decide) (by decide) (by decide) (by decide)
    (occurs_only_at (by decide) (by decide))
  revert this
  decide

/-- C4, the failing input.  `bob: <img src="data:image/png;AAAA"/> look` has an `<img src="`
whose segment begins with `data:image/` and holds no `base64,`: `tmp[1]` on line 50 is out of
range, the turn of the loop panics, and nothing is posted. -/
theorem missing_marker_panics (config : Configuration) (StripTags : Str → Str) :
    connectSlackBody config StripTags "bob: <img src=\"data:image/png;AAAA\"/> look".toList =
      .panic [] := by
  rfl

/-! ## Facts about the link pattern -/

theorem starLoop_append {α : Type} (set : Char → Bool) (k : Str → Option α) (a t : Str) (r : α)
    (ha : ∀ c ∈ a, set c = true) (ht : starLoop set k t = some r) :
    starLoop set k (a ++ t) = some r := by
  induction a with
  | nil => exact ht
  | cons c a ih =>
    have hc : set c = true := ha c (by simp)
    have := ih (fun d hd => ha d (by simp [hd]))
    rw [List.cons_append, starLoop, if_pos hc, this]

theorem linkRe_matchAt (u lab : Str) (hset : ∀ c ∈ u, urlSet c = true)
    (hnl : ∀ c ∈ lab, anyChar c = true) :
    linkRe.matchAt ("<http".toList ++ u ++ '|' :: (lab ++ ['>'])) =
      some ([], [(2, lab), (1, "http".toList ++ u)]) := by
  have hlist : "<http".toList ++ u ++ '|' :: (lab ++ ['>']) =
      '<' :: 'h' :: 't' :: 't' :: 'p' :: (u ++ '|' :: (lab ++ ['>'])) := rfl
  have hinner : ∀ (caps : Caps),
      starLoop anyChar
        (fun s1 => match s1 with
          | [] => none
          | d :: ds => if d = '>' then
              some (ds, (2, List.take ((lab ++ ['>']).length - s1.length) (lab ++ ['>'])) :: caps)
            else none)
        (lab ++ ['>']) = some ([], (2, lab) :: caps) := by
    intro caps
    apply starLoop_append _ _ _ _ _ hnl
    simp [starLoop, anyChar]
  unfold Regex.matchAt linkRe
  rw [hlist]
  simp only [Regex.run, if_true]
  apply starLoop_append _ _ _ _ _ hset
  rw [starLoop, if_neg (by decide)]
  simp only [if_true]
  rw [hinner]
  simp only [Option.some.injEq, Prod.mk.injEq, List.cons.injEq, true_and, and_true]
  have e : ('h' :: 't' :: 't' :: 'p' :: (u ++ '|' :: (lab ++ ['>']))).length -
      ('|' :: (lab ++ ['>'])).length = ("http".toList ++ u).length := by
    simp only [List.length_cons, List.length_append, List.length_nil, String.toList]
    simp
    omega
  rw [e, show 'h' :: 't' :: 't' :: 'p' :: (u ++ '|' :: (lab ++ ['>'])) =
    ("http".toList ++ u) ++ '|' :: (lab ++ ['>']) from rfl, List.take_left]

theorem replaceAllLoop_link_nil (repl : Caps → Str) (n : Nat) :
    replaceAllLoop linkRe repl n [] = [] := by
  cases n <;> rfl

theorem replaceAllLoop_of_match (re : Regex) (repl : Caps → Str) (n : Nat) (s rest : Str)
    (caps : Caps) (h : re.matchAt s = some (rest, caps)) :
    replaceAllLoop re repl (n + 1) s = repl caps ++ replaceAllLoop re repl n rest := by
  rw [replaceAllLoop.eq_def]
  simp only [h]

theorem ReplaceAllString_link (u lab : Str) (hset : ∀ c ∈ u, urlSet c = true)
    (hnl : ∀ c ∈ lab, anyChar c = true) :
    ReplaceAllString linkRe ("<http".toList ++ u ++ '|' :: (lab ++ ['>'])) anchor =
      "<a href=\"".toList ++ ("http".toList ++ u) ++ "\">".toList ++ lab ++ "</a>".toList := by
  unfold ReplaceAllString
  rw [replaceAllLoop_of_match _ _ _ _ _ _ (linkRe_matchAt u lab hset hnl),
    replaceAllLoop_link_nil, List.append_nil]
  rfl

theorem quote_not_mem_of_urlSet {u : Str} (hset : ∀ c ∈ u, urlSet c = true) : '"' ∉ u :=
  fun h => absurd (hset '"' h) (by decide)

theorem anyChar_of_not_mem {l : Str} (h : '\n' ∉ l) : ∀ c ∈ l, anyChar c = true := by
  intro c hc
  have : c ≠ '\n' := fun e => h (e ▸ hc)
  simp [anyChar, this]

/-- An anchor with a label that does not begin with `<` holds no `"></a>`. -/
theorem Index_anchor_none (u : Str) (c : Char) (lab : Str) (hu : '"' ∉ u)
    (hc : c ≠ '<') (hlab : '"' ∉ c :: lab) :
    Index ("<a href=\"".toList ++ ("http".toList ++ u) ++ "\">".toList ++ (c :: lab) ++
      "</a>".toList) emptyLabel = none := by
  have hne : emptyLabel = '"' :: "></a>".toList := rfl
  have e : "<a href=\"".toList ++ ("http".toList ++ u) ++ "\">".toList ++ (c :: lab) ++
      "</a>".toList =
      "<a href=".toList ++ ('"' :: (("http".toList ++ u) ++
        ('"' :: (('>' :: c :: lab ++ "</a>".toList) ++ [])))) := by
    simp
  have hU : '"' ∉ "http".toList ++ u := by
    intro h
    rcases List.mem_append.mp h with h | h
    · revert h; decide
    · exact hu h
  have hL : '"' ∉ '>' :: c :: lab ++ "</a>".toList := by
    intro h
    rcases List.mem_cons.mp h with h | h
    · revert h; decide
    · rcases List.mem_append.mp h with h | h
      · exact hlab h
      · revert h; decide
  have p1 : emptyLabel.isPrefixOf ('"' :: (("http".toList ++ u) ++
      ('"' :: (('>' :: c :: lab ++ "</a>".toList) ++ [])))) = false := by
    simp [emptyLabel, List.isPrefixOf]
  have p2 : emptyLabel.isPrefixOf ('"' :: (('>' :: c :: lab ++ "</a>".toList) ++ [])) = false := by
    simp [emptyLabel, List.isPrefixOf, Ne.symm hc]
  rw [e, hne, Index_skip _ _ (by decide), ← hne, Index_cons_of_not_isPrefixOf p1, hne,
    Index_skip _ _ hU, ← hne, Index_cons_of_not_isPrefixOf p2, hne, Index_skip _ _ hL,
    Index_nil (by decide)]
  rfl

/-- In an anchor with an empty label, `"></a>` is found right behind the URL. -/
theorem Index_anchor_empty (u : Str) (hu : '"' ∉ u) :
    Index ("<a href=\"".toList ++ ("http".toList ++ u) ++ emptyLabel) emptyLabel =
      some ("<a href=\"".toList ++ ("http".toList ++ u)).length := by
  have hne : emptyLabel = '"' :: "></a>".toList := rfl
  have e : "<a href=\"".toList ++ ("http".toList ++ u) ++ emptyLabel =
      "<a href=".toList ++ ('"' :: (("http".toList ++ u) ++ emptyLabel)) := by
    simp
  have hU : '"' ∉ "http".toList ++ u := by
    intro h
    rcases List.mem_append.mp h with h | h
    · revert h; decide
    · exact hu h
  have p1 : emptyLabel.isPrefixOf ('"' :: (("http".toList ++ u) ++ emptyLabel)) = false := by
    simp [emptyLabel, List.isPrefixOf]
  rw [e, hne, Index_skip _ _ (by decide), ← hne, Index_cons_of_not_isPrefixOf p1, hne,
    Index_skip _ _ hU, ← hne,
    Index_of_isPrefixOf (List.isPrefixOf_iff_prefix.mpr (List.prefix_refl _))]
  simp

/-- Left of the first occurrence of `sep`, no occurrence of `sep` begins, also when a proper
prefix of `sep` follows. -/
theorem Index_take_append_proper {s sep x : Str} {j : Nat} (h : Index s sep = some j)
    (hx : x <+: sep) (hlen : x.length < sep.length) :
    Index (s.take j ++ x) sep = none := by
  have hne : sep ≠ [] := by
    intro e
    rw [e] at hlen
    exact Nat.not_lt_zero _ hlen
  have hj := Index_some_length hne h
  obtain ⟨hdec, hfirst⟩ := Index_some_decomp s j h
  have htl : (s.take j).length = j := by
    rw [List.length_take]
    omega
  rw [Index_none_iff]
  intro i
  apply Bool.eq_false_iff.mpr
  intro hp
  have hpre := List.isPrefixOf_iff_prefix.mp hp
  by_cases hi : i < j
  · have hle : i ≤ (s.take j).length := by omega
    rw [List.drop_append_of_le_length hle] at hpre
    obtain ⟨y, hy⟩ := hx
    have hsd : s.drop i = List.drop i (s.take j) ++ x ++ (y ++ s.drop (j + sep.length)) := by
      conv_lhs => rw [hdec]
      rw [List.append_assoc, List.drop_append_of_le_length hle, ← hy]
      simp
    have : sep <+: s.drop i := by
      rw [hsd]
      exact hpre.trans (List.prefix_append _ _)
    have hf := hfirst i hi
    rw [List.isPrefixOf_iff_prefix.mpr this] at hf
    cases hf
  · have := hpre.length_le
    simp only [List.length_drop, List.length_append, htl] at this
    omega

/-- What `strings.Replace` returns on line 103 holds no `"></a>` any more. -/
theorem Index_Replace_emptyLabel (n : Nat) :
    ∀ s : Str, s.length ≤ n → Index (Replace s emptyLabel noTitle) emptyLabel = none := by
  induction n with
  | zero =>
    intro s hs
    have : s = [] := List.length_eq_zero.mp (Nat.le_zero.mp hs)
    subst this
    rfl
  | succ n ih =>
    intro s hs
    cases hI : Index s emptyLabel with
    | none => rw [Replace_none (by decide) hI, hI]
    | some j =>
      have hj := Index_some_length (by decide) hI
      have h6 : emptyLabel.length = 6 := rfl
      rw [Replace_some (by decide) (by decide) hI]
      have hrec := ih (s.drop (j + emptyLabel.length)) (by
        simp only [List.length_drop]
        omega)
      have e : s.take j ++ noTitle ++ Replace (s.drop (j + emptyLabel.length)) emptyLabel noTitle =
          (s.take j ++ "\">".toList) ++ 'L' ::
            ("ink has no title? I didn't know Slack would even do that...</a>".toList ++
              Replace (s.drop (j + emptyLabel.length)) emptyLabel noTitle) := by
        rw [show noTitle = "\">".toList ++ 'L' ::
          "ink has no title? I didn't know Slack would even do that...</a>".toList from rfl]
        simp
      have hleft : Index (s.take j ++ "\">".toList) emptyLabel = none :=
        Index_take_append_proper hI ⟨"</a>".toList, rfl⟩ (by decide)
      have hright : Index
          ("ink has no title? I didn't know Slack would even do that...</a>".toList ++
            Replace (s.drop (j + emptyLabel.length)) emptyLabel noTitle) emptyLabel = none := by
        rw [show emptyLabel = '"' :: "></a>".toList from rfl, Index_skip _ _ (by decide)]
        rw [show ('"' :: "></a>".toList) = emptyLabel from rfl, hrec]
        rfl
      rw [e, Index_append_cons (by decide) (by decide), hleft, hright]
      rfl

/-- C2.  Link rewrite: for a URL `u` that starts with `http` and holds only characters of the
pattern's URL set, and a non-empty label `l` on one line without `<`, `>` and `"`, the text
`<u|l>` is rewritten to exactly `<a href="u">l</a>`, and the message sent into the Mumble
channel for it is the user's name, `: `, and that anchor. -/
theorem link_rewrite (u l : Str)
    (hu : "http".toList <+: u) (hset : ∀ c ∈ u, urlSet c = true)
    (hl : l ≠ []) (hnl : '\n' ∉ l) (hlt : '<' ∉ l) (_hgt : '>' ∉ l) (hq : '"' ∉ l) :
    rewriteText ("<".toList ++ u ++ "|".toList ++ l ++ ">".toList) =
        "<a href=\"".toList ++ u ++ "\">".toList ++ l ++ "</a>".toList ∧
      ∀ (GetUserInfo : Str → Option User) (user : Str) (slackUser : User),
        GetUserInfo user = some slackUser → slackUser.Name ≠ "mumblerelay".toList →
        manageSlack GetUserInfo
            [.MessageEvent user ("<".toList ++ u ++ "|".toList ++ l ++ ">".toList)] =
          [slackUser.Name ++ ": ".toList ++
            ("<a href=\"".toList ++ u ++ "\">".toList ++ l ++ "</a>".toList)] := by
  obtain ⟨v, rfl⟩ := hu
  have hv : ∀ c ∈ v, urlSet c = true := fun c hc => hset c (List.mem_append_right _ hc)
  have hrw : rewriteText ("<".toList ++ ("http".toList ++ v) ++ "|".toList ++ l ++ ">".toList) =
      "<a href=\"".toList ++ ("http".toList ++ v) ++ "\">".toList ++ l ++ "</a>".toList := by
    have e : "<".toList ++ ("http".toList ++ v) ++ "|".toList ++ l ++ ">".toList =
        "<http".toList ++ v ++ '|' :: (l ++ ['>']) := by
      simp
    unfold rewriteText
    rw [e, ReplaceAllString_link v l hv (anyChar_of_not_mem hnl)]
    cases l with
    | nil => exact absurd rfl hl
    | cons c lab =>
      have hc : c ≠ '<' := fun e => hlt (by simp [e])
      exact Replace_none (by decide)
        (Index_anchor_none v c lab (quote_not_mem_of_urlSet hv) hc hq)
  refine ⟨hrw, ?_⟩
  intro GetUserInfo user slackUser hinfo hname
  simp only [manageSlack, manageSlackEvent, hinfo, hrw, if_pos hname, List.append_nil]

/-- C2, witness: `<https://example.com|click here>` gives
`<a href="https://example.com">click here</a>`. -/
theorem link_rewrite_witness :
    rewriteText ("<".toList ++ "https://example.com".toList ++ "|".toList ++
        "click here".toList ++ ">".toList) =
      "<a href=\"".toList ++ "https://example.com".toList ++ "\">".toList ++
        "click here".toList ++ "</a>".toList ∧
    manageSlack (fun _ => some ⟨"alice".toList⟩)
        [.MessageEvent "U1".toList ("<".toList ++ "https://example.com".toList ++ "|".toList ++
          "click here".toList ++ ">".toList)] =
      ["alice".toList ++ ": ".toList ++
        ("<a href=\"".toList ++ "https://example.com".toList ++ "\">".toList ++
          "click here".toList ++ "</a>".toList)] :=
  have h := link_rewrite "https://example.com".toList "click here".toList (by decide)
    (by decide) (by decide) (by decide) (by decide) (by decide) (by decide)
  ⟨h.1, h.2 (fun _ => some ⟨"alice".toList⟩) "U1".toList ⟨"alice".toList⟩ rfl (by decide)⟩

/-- C6.  Empty link label: the rewritten text of a message never holds `"></a>`, and for a URL
`u` that starts with `http` and holds only characters of the pattern's URL set, `<u|>` is
rewritten to `<a href="u">`, the fixed sentence, `</a>`. -/
theorem empty_label_replaced :
    (∀ text : Str, ¬ emptyLabel <:+: rewriteText text) ∧
      ∀ u : Str, "http".toList <+: u → (∀ c ∈ u, urlSet c = true) →
        rewriteText ("<".toList ++ u ++ "|>".toList) =
          "<a href=\"".toList ++ u ++ "\">".toList ++
            "Link has no title? I didn't know Slack would even do that...".toList ++
            "</a>".toList := by
  constructor
  · intro text hin
    have hnone := Index_Replace_emptyLabel _ (ReplaceAllString linkRe text anchor) (Nat.le_refl _)
    obtain ⟨a, b, hab⟩ := hin
    have := Index_none_iff.mp hnone a.length
    unfold rewriteText at hab
    rw [← hab, List.append_assoc, List.drop_left,
      List.isPrefixOf_iff_prefix.mpr (List.prefix_append _ _)] at this
    cases this
  · intro u hu hset
    obtain ⟨v, rfl⟩ := hu
    have hv : ∀ c ∈ v, urlSet c = true := fun c hc => hset c (List.mem_append_right _ hc)
    have e : "<".toList ++ ("http".toList ++ v) ++ "|>".toList =
        "<http".toList ++ v ++ '|' :: ([] ++ ['>']) := by
      simp
    unfold rewriteText
    rw [e, ReplaceAllString_link v [] hv (by simp)]
    have hI := Index_anchor_empty v (quote_not_mem_of_urlSet hv)
    have e2 : "<a href=\"".toList ++ ("http".toList ++ v) ++ "\">".toList ++ [] ++ "</a>".toList =
        "<a href=\"".toList ++ ("http".toList ++ v) ++ emptyLabel := by
      simp [emptyLabel]
    rw [e2, Replace_some (by decide) (by decide) hI, List.take_left,
      ← List.length_append, List.drop_length, Replace_none (by decide) (Index_nil (by decide))]
    simp [noTitle]

/-- C6, witness: `<https://example.com|>` gets the fixed sentence as its label. -/
theorem empty_label_replaced_witness :
    rewriteText ("<".toList ++ "https://example.com".toList ++ "|>".toList) =
      "<a href=\"".toList ++ "https://example.com".toList ++ "\">".toList ++
        "Link has no title? I didn't know Slack would even do that...".toList ++
        "</a>".toList :=
  empty_label_replaced.2 "https://example.com".toList (by decide) (by decide)

/-- C10, the failing input.  With two links on one line the `(.*)` of the pattern runs up to the
last `>` of the line: `<http://a|x> and <http://b|y>` becomes one anchor, whose label holds
the text between the links and the second link, unrewritten. -/
theorem two_links_on_a_line_merge :
    rewriteText "<http://a|x> and <http://b|y>".toList =
      "<a href=\"http://a\">x> and <http://b|y</a>".toList := by
  decide

/-! ## Facts about the two loops -/

theorem manageSlack_InvalidAuth (G : Str → Option User) (pre post : List Event) :
    manageSlack G (pre ++ .InvalidAuthEvent :: post) = manageSlack G pre := by
  induction pre with
  | nil => rfl
  | cons ev pre ih =>
    rw [List.cons_append, manageSlack, manageSlack, ih]

theorem manageSlackEvent_eq_none (G : Str → Option User) (ev : Event)
    (h : manageSlackEvent G ev = none) : ev = .InvalidAuthEvent := by
  cases ev <;> simp [manageSlackEvent] at h ⊢
  rename_i user text
  cases hG : G user with
  | none => simp [hG] at h
  | some slackUser =>
    simp only [hG] at h
    split at h <;> cases h

theorem manageSlack_eq_flatMap (G : Str → Option User) (evs : List Event)
    (h : Event.InvalidAuthEvent ∉ evs) :
    manageSlack G evs = evs.flatMap (fun ev => manageSlack G [ev]) := by
  induction evs with
  | nil => rfl
  | cons ev evs ih =>
    have hev : ev ≠ .InvalidAuthEvent := fun e => h (by simp [e])
    have ih2 := ih (fun e => h (by simp [e]))
    cases hm : manageSlackEvent G ev with
    | none => exact absurd (manageSlackEvent_eq_none G ev hm) hev
    | some sent =>
      have h1 : manageSlack G (ev :: evs) = sent ++ manageSlack G evs := by
        rw [manageSlack, hm]
      have h2 : manageSlack G [ev] = sent := by
        rw [manageSlack, hm, manageSlack]
        exact List.append_nil sent
      rw [List.flatMap_cons, h1, h2, ih2]

theorem manageSlack_skip (G : Str → Option User) (ev : Event)
    (h : manageSlackEvent G ev = some []) (pre post : List Event) :
    manageSlack G (pre ++ ev :: post) = manageSlack G (pre ++ post) := by
  induction pre with
  | nil => simp [manageSlack, h]
  | cons e pre ih =>
    rw [List.cons_append, List.cons_append, manageSlack, manageSlack, ih]

theorem Relay_run_toSlack (config : Configuration) (StripTags : Str → Str)
    (G : Str → Option User) (inputs : List Input) :
    ∀ r : Relay, (Relay.run config StripTags G r inputs).toSlack =
      r.toSlack ++
        (if r.crashed then [] else (connectSlack config StripTags (dequeuedOf inputs)).calls) := by
  induction inputs with
  | nil =>
    intro r
    cases r.crashed <;> simp [Relay.run, dequeuedOf, connectSlack, Outcome.calls]
  | cons inp inputs ih =>
    intro r
    have hrun : Relay.run config StripTags G r (inp :: inputs) =
        Relay.run config StripTags G (Relay.step config StripTags G r inp) inputs := rfl
    rw [hrun, ih]
    cases inp with
    | slack ev =>
      simp only [Relay.step, dequeuedOf]
      split
      · rfl
      · split <;> rfl
    | dequeued msg =>
      obtain ⟨sl, cr, tm, ts⟩ := r
      simp only [Relay.step, dequeuedOf, connectSlack]
      cases cr with
      | true => simp
      | false =>
        cases hb : connectSlackBody config StripTags msg with
        | panic calls => simp [Outcome.calls]
        | done calls =>
          cases connectSlack config StripTags (dequeuedOf inputs) <;> simp [Outcome.calls]

/-- C3.  Loop suppression and nil sender: a Mumble text event without a sender, or sent by
`SlackRelay`, makes the listener return without a panic and without sending anything on
`mumbleMessageChan`; a Slack message whose user resolves to `mumblerelay` sends nothing into
the Mumble channel, alone or anywhere in a sequence of events. -/
theorem loop_suppression :
    (∀ e : TextMessageEvent,
      (e.Sender = none ∨ ∃ u : User, e.Sender = some u ∧ u.Name = "SlackRelay".toList) →
        TextMessage e = .sent []) ∧
      ∀ (GetUserInfo : Str → Option User) (user text : Str) (slackUser : User),
        GetUserInfo user = some slackUser → slackUser.Name = "mumblerelay".toList →
          manageSlackEvent GetUserInfo (.MessageEvent user text) = some [] ∧
            ∀ pre post : List Event,
              manageSlack GetUserInfo (pre ++ .MessageEvent user text :: post) =
                manageSlack GetUserInfo (pre ++ post) := by
  constructor
  · intro e h
    rcases h with h | ⟨u, h, hn⟩
    · simp [TextMessage, h]
    · simp [TextMessage, senderName, h, hn]
  · intro G user text slackUser hG hn
    have h : manageSlackEvent G (.MessageEvent user text) = some [] := by
      simp [manageSlackEvent, hG, hn]
    exact ⟨h, manageSlack_skip G _ h⟩

/-- C3, witness: a message without sender, a message of `SlackRelay`, and a Slack message of
`mumblerelay` between two events. -/
theorem loop_suppression_witness :
    TextMessage ⟨none, "hi".toList⟩ = .sent [] ∧
      TextMessage ⟨some ⟨"SlackRelay".toList⟩, "bob: hi".toList⟩ = .sent [] ∧
      manageSlack (fun _ => some ⟨"mumblerelay".toList⟩)
          ([.HelloEvent] ++ .MessageEvent "U0".toList "bob: hi".toList :: [.LatencyReport]) =
        manageSlack (fun _ => some ⟨"mumblerelay".toList⟩) ([.HelloEvent] ++ [.LatencyReport]) :=
  ⟨loop_suppression.1 ⟨none, "hi".toList⟩ (Or.inl rfl),
    loop_suppression.1 ⟨some ⟨"SlackRelay".toList⟩, "bob: hi".toList⟩
      (Or.inr ⟨⟨"SlackRelay".toList⟩, rfl, rfl⟩),
    (loop_suppression.2 (fun _ => some ⟨"mumblerelay".toList⟩) "U0".toList "bob: hi".toList
      ⟨"mumblerelay".toList⟩ rfl rfl).2 [.HelloEvent] [.LatencyReport]⟩

/-- C7.  Auth-invalid halts one direction only: whatever follows an `InvalidAuthEvent` adds
nothing to what `manageSlack` sends into the Mumble channel, which is what the events before
the first `InvalidAuthEvent` send, one by one; and the calls made on Slack in a run of the relay
are those `connectSlack` makes for the payloads dequeued, whatever Slack events, an
`InvalidAuthEvent` among them, come in between. -/
theorem auth_invalid_halts_slack_side_only :
    (∀ (GetUserInfo : Str → Option User) (pre post : List Event),
      manageSlack GetUserInfo (pre ++ .InvalidAuthEvent :: post) = manageSlack GetUserInfo pre) ∧
    (∀ (GetUserInfo : Str → Option User) (pre post : List Event),
      Event.InvalidAuthEvent ∉ pre →
        manageSlack GetUserInfo (pre ++ .InvalidAuthEvent :: post) =
          pre.flatMap (fun ev => manageSlack GetUserInfo [ev])) ∧
    ∀ (config : Configuration) (StripTags : Str → Str) (GetUserInfo : Str → Option User)
      (inputs : List Input),
      (Relay.run config StripTags GetUserInfo Relay.start inputs).toSlack =
        (connectSlack config StripTags (dequeuedOf inputs)).calls := by
  refine ⟨manageSlack_InvalidAuth, ?_, ?_⟩
  · intro G pre post h
    rw [manageSlack_InvalidAuth, manageSlack_eq_flatMap G pre h]
  · intro config StripTags G inputs
    rw [Relay_run_toSlack]
    rfl

/-- C7, witness: a message, then `InvalidAuthEvent`, then another message: the first message
alone is sent on. -/
theorem auth_invalid_halts_slack_side_only_witness :
    manageSlack (fun _ => some ⟨"alice".toList⟩)
        ([.MessageEvent "U1".toList "one".toList] ++
          .InvalidAuthEvent :: [.MessageEvent "U1".toList "two".toList]) =
      [Event.MessageEvent "U1".toList "one".toList].flatMap
        (fun ev => manageSlack (fun _ => some ⟨"alice".toList⟩) [ev]) :=
  auth_invalid_halts_slack_side_only.2.1 (fun _ => some ⟨"alice".toList⟩)
    [.MessageEvent "U1".toList "one".toList] [.MessageEvent "U1".toList "two".toList]
    (by decide)

/-- C8.  Unknown event kind: an event that is neither a `MessageEvent` nor an
`InvalidAuthEvent` sends nothing into the Mumble channel and does not end the loop: put
anywhere into a sequence of events, it leaves what `manageSlack` sends unchanged. -/
theorem unknown_event_ignored (GetUserInfo : Str → Option User) (ev : Event)
    (hmsg : ∀ user text : Str, ev ≠ .MessageEvent user text) (hauth : ev ≠ .InvalidAuthEvent) :
    manageSlackEvent GetUserInfo ev = some [] ∧
      ∀ pre post : List Event,
        manageSlack GetUserInfo (pre ++ ev :: post) = manageSlack GetUserInfo (pre ++ post) := by
  have h : manageSlackEvent GetUserInfo ev = some [] := by
    cases ev with
    | MessageEvent user text => exact absurd rfl (hmsg user text)
    | InvalidAuthEvent => exact absurd rfl hauth
    | _ => rfl
  exact ⟨h, manageSlack_skip GetUserInfo ev h⟩

/-- C8, witness: an event of a kind the `switch` does not know, between two messages. -/
theorem unknown_event_ignored_witness :
    manageSlackEvent (fun _ => some ⟨"alice".toList⟩) (.Other "pin_added".toList) = some [] ∧
      ∀ pre post : List Event,
        manageSlack (fun _ => some ⟨"alice".toList⟩)
            (pre ++ .Other "pin_added".toList :: post) =
          manageSlack (fun _ => some ⟨"alice".toList⟩) (pre ++ post) :=
  unknown_event_ignored (fun _ => some ⟨"alice".toList⟩) (.Other "pin_added".toList)
    (fun _ _ h => Event.noConfusion h) (fun h => Event.noConfusion h)

end Slumble
